/-
Verification of the PyRectPacking core (rect.py, bin.py, maxspace.py, solution.py)
against its natural-language specification.

Shallow embedding conventions:
* Python ints are `Int` (arbitrary precision, as in Python).
* Python floats appearing in scores are embedded exactly: a score is either the
  initial `float('inf')`, an integer-valued float, or the negated square root of a
  nonnegative integer (the only shapes the code produces).  Comparisons on these
  exact values agree with the float comparisons in the source for all inputs the
  code produces (square roots are compared via their squares, which is valid
  because `sqrt` is strictly monotone).
* The one place where float *rounding* is observable — `computeLowerBound`, which
  divides two Python ints with `/` — is embedded with an explicit IEEE-754
  round-to-nearest-even model over `ℚ` (`roundDouble`).
* Python exceptions are `Except EvalErr`; returning `None` is `Option.none`.
* The free-space list mutation loops of maxspace.py are embedded as the
  equivalent pure list transformations, documented at each definition.
-/
import Mathlib

/-- The exact value of a heuristic score as produced by the source: `float('inf')`,
an integer-valued float, or `-sqrt(n)` for a nonnegative integer `n` (the
TopRightCornerDistance score).  `ofInt` and `negSqrt` overlap only at perfect
squares; comparisons below implement the exact real comparison. -/
inductive Score where
  | inf : Score
  | ofInt (n : Int) : Score
  | negSqrt (n : Int) : Score
deriving DecidableEq, Repr

namespace Score

/-- Exact `<` on score values (`-sqrt a < -sqrt b ↔ b < a`; both square-root
arguments are nonnegative in every state the code produces). -/
def lt : Score → Score → Bool
  | inf, _ => false
  | _, inf => true
  | ofInt a, ofInt b => a < b
  | negSqrt a, negSqrt b => b < a
  | ofInt a, negSqrt b => a < 0 && b < a ^ 2
  | negSqrt a, ofInt b => 0 < b || b ^ 2 < a

/-- Exact `==` on score values. -/
def beq : Score → Score → Bool
  | inf, inf => true
  | ofInt a, ofInt b => a == b
  | negSqrt a, negSqrt b => a == b
  | ofInt a, negSqrt b => a ≤ 0 && a ^ 2 == b
  | negSqrt a, ofInt b => b ≤ 0 && b ^ 2 == a
  | _, _ => false

end Score

/-- Decidable equality for `Except` results (not provided by core). -/
instance {e a : Type} [DecidableEq e] [DecidableEq a] : DecidableEq (Except e a) := fun x y =>
  match x, y with
  | .ok v, .ok w =>
    if h : v = w then isTrue (by rw [h]) else isFalse (by simp [h])
  | .error v, .error w =>
    if h : v = w then isTrue (by rw [h]) else isFalse (by simp [h])
  | .ok _, .error _ => isFalse (by simp)
  | .error _, .ok _ => isFalse (by simp)

/-- rect.py `Rect.__init__`: width/height fixed at creation, position `(-1,-1)`
("not packed yet"), both scores `float('inf')`.  The derived `area` field and
the id property are not used by any claim and are omitted. -/
structure Rect where
  width : Int
  height : Int
  x : Int
  y : Int
  score1 : Score
  score2 : Score
deriving DecidableEq, Repr

namespace Rect

/-- rect.py `Rect.__init__`. -/
def mkRect (w h : Int) : Rect :=
  { width := w, height := h, x := -1, y := -1, score1 := .inf, score2 := .inf }

/-- rect.py `Rect.rotate`: swap width and height. -/
def rotate (r : Rect) : Rect :=
  { r with width := r.height, height := r.width }

/-- rect.py `Rect.isDegenerate`. -/
def isDegenerate (r : Rect) : Bool :=
  r.width == 0 || r.height == 0

/-- rect.py `Rect.isReadyForPacking`: position in bin has been found. -/
def isReadyForPacking (r : Rect) : Bool :=
  r.x != -1 && r.y != -1

/-- rect.py `Rect.removePackingInfo`. -/
def removePackingInfo (r : Rect) : Rect :=
  { r with x := -1, y := -1, score1 := .inf, score2 := .inf }

/-- rect.py `Rect.computeCommonLength`: 1-D interval overlap length, `0` when the
intervals are disjoint or only touching. -/
def computeCommonLength (start1 end1 start2 end2 : Int) : Int :=
  if start2 ≥ end1 ∨ end2 ≤ start1 then 0
  else min end1 end2 - max start1 start2

/-- rect.py `Rect.isContainedIn` (closed containment; equality counts). -/
def isContainedIn (self rect : Rect) : Bool :=
  decide (self.x ≥ rect.x ∧ self.y ≥ rect.y ∧
    self.x + self.width ≤ rect.x + rect.width ∧
    self.y + self.height ≤ rect.y + rect.height)

/-- rect.py `Rect.isOverlapping`, with the source's exact branch structure:
if the x-extents overlap openly, test the common y-length; otherwise if the
y-extents overlap openly, test the common x-length; otherwise false. -/
def isOverlapping (self rect : Rect) : Bool :=
  if ¬ (self.x ≥ rect.x + rect.width ∨ self.x + self.width ≤ rect.x) then
    decide (computeCommonLength self.y (self.y + self.height) rect.y (rect.y + rect.height) > 0)
  else if ¬ (self.y ≥ rect.y + rect.height ∨ self.y + self.height ≤ rect.y) then
    decide (computeCommonLength self.x (self.x + self.width) rect.x (rect.x + rect.width) > 0)
  else
    false

end Rect

/-- bin.py `PackingHeuristic`. -/
inductive PackingHeuristic where
  | BestAreaFit
  | TouchingPerimeter
  | TopRightCornerDistance
deriving DecidableEq, Repr

/-- Python runtime errors that the embedded code can raise. -/
inductive EvalErr where
  /-- `NameError`: unqualified `binWidth`/`binHeight` in
  `MaxSpaceBin.insertTopRightCornerDistance`'s rotation branch. -/
  | nameError
  /-- maxspace.py `pruneMaxSpaces`: `ValueError("Error")` when the free-space
  list empties while occupancy is below 1. -/
  | valueError
  /-- solution.py `removeAndRepack`: percentage outside `[0, 1]`. -/
  | valueErrorPercentage
  /-- solution.py `removeAndRepack`: called with no items. -/
  | runtimeNoItems
  /-- solution.py `getLeastFilledBin`: `RuntimeError("Wrong occupancy")`. -/
  | runtimeWrongOccupancy
  /-- solution.py `solutionValue`: `None.getOccupancy()` on an empty bin list. -/
  | attributeError
  /-- `TypeError` from using `None` where a list is required (e.g. `len(None)`). -/
  | typeError
deriving DecidableEq, Repr

/-- The state of a bin.py `Bin` / maxspace.py `MaxSpaceBin` (the only concrete
bin class): fixed dimensions, packed items, free spaces, occupied-area
accumulator, rotation flag, and the heuristic recorded by `evaluatePacking`. -/
structure MaxSpaceBin where
  binWidth : Int
  binHeight : Int
  occupiedArea : Int
  touchingPerimeter : Int
  packedRects : List Rect
  freeRects : List Rect
  canRotate : Bool
  packHeur : Option PackingHeuristic
deriving DecidableEq, Repr

instance : Inhabited MaxSpaceBin :=
  ⟨{ binWidth := 0, binHeight := 0, occupiedArea := 0, touchingPerimeter := 0,
     packedRects := [], freeRects := [], canRotate := false, packHeur := none }⟩

namespace MaxSpaceBin

/-- bin.py `Bin.__init__` followed by `init`/`setup`, with maxspace.py
`MaxSpaceBin.setupFreeRects`: one free space covering the whole bin. -/
def mkBin (w h : Int) : MaxSpaceBin :=
  { binWidth := w, binHeight := h, occupiedArea := 0, touchingPerimeter := 0,
    packedRects := [],
    freeRects := [{ Rect.mkRect w h with x := 0, y := 0 }],
    canRotate := false, packHeur := none }

/-- bin.py `Bin.packRect`: append to the packed set and add the item's area. -/
def packRect (b : MaxSpaceBin) (r : Rect) : MaxSpaceBin :=
  { b with packedRects := b.packedRects ++ [r],
           occupiedArea := b.occupiedArea + r.width * r.height }

/-- bin.py `Bin.isEmpty`. -/
def isEmpty (b : MaxSpaceBin) : Bool :=
  b.packedRects.length == 0

/-- bin.py `Bin.isOverlapping`: open-interval overlap on both axes. -/
def isOverlappingB (rect1 rect2 : Rect) : Bool :=
  let horizSkip := rect1.x ≥ rect2.x + rect2.width ∨ rect1.x + rect1.width ≤ rect2.x
  let vertSkip := rect1.y ≥ rect2.y + rect2.height ∨ rect1.y + rect1.height ≤ rect2.y
  ! decide (horizSkip ∨ vertSkip)

/-- bin.py `Bin.isFeasible`: every packed item inside the bin and no two packed
items overlapping (the source checks ordered pairs `i < j`). -/
def isFeasible (b : MaxSpaceBin) : Bool :=
  decide (∀ r1 ∈ b.packedRects,
      ¬ (r1.x < 0 ∨ r1.x > b.binWidth) ∧ ¬ (r1.y < 0 ∨ r1.y > b.binHeight) ∧
      ¬ (r1.x + r1.width > b.binWidth ∨ r1.y + r1.height > b.binHeight)) &&
    decide (b.packedRects.Pairwise fun r1 r2 => r1.isOverlapping r2 = false)

/-- bin.py `Bin.computeTouchingPerimeter`: height is added once when the candidate
touches the left or right bin edge, width once for bottom or top; then each
packed item adds the shared boundary length on the sides where it abuts the
candidate.  The `for` loop is a fold over the packed list. -/
def computeTouchingPerimeter (b : MaxSpaceBin) (x y width height : Int) : Int :=
  let p0 : Int := if x = 0 ∨ x + width = b.binWidth then height else 0
  let p1 : Int := p0 + (if y = 0 ∨ y + height = b.binHeight then width else 0)
  b.packedRects.foldl
    (fun perimeter rect =>
      let perimeter :=
        if rect.x + rect.width = x ∨ x + width = rect.x then
          perimeter + Rect.computeCommonLength y (y + height) rect.y (rect.y + rect.height)
        else perimeter
      if rect.y = y + height ∨ rect.y + rect.height = y then
        perimeter + Rect.computeCommonLength x (x + width) rect.x (rect.x + rect.width)
      else perimeter)
    p1

/-- The squared Euclidean distance of bin.py `Bin.computeDistance`.  The source
takes a square root and only ever compares distances (all nonnegative), so the
embedding tracks the exact squares; `sqrt` being strictly monotone makes every
comparison agree. -/
def computeDistanceSq (x1 y1 x2 y2 : Int) : Int :=
  (x1 - x2) * (x1 - x2) + (y1 - y2) * (y1 - y2)

/-- bin.py `Bin.getPackedArea`. -/
def getPackedArea (b : MaxSpaceBin) : Int :=
  b.occupiedArea

/-- bin.py `Bin.getOccupancy`: the exact value of
`occupiedArea/(binWidth*binHeight)` (`Rat.divInt a b = (a : ℚ) / (b : ℚ)` by
`Rat.divInt_eq_div`; `divInt` is used so that concrete states evaluate inside
the kernel). -/
def getOccupancy (b : MaxSpaceBin) : ℚ :=
  Rat.divInt b.occupiedArea (b.binWidth * b.binHeight)

end MaxSpaceBin

namespace MaxSpaceBin

/-- Best-so-far comparison of maxspace.py `insertBestArea`: the `float('inf')`
sentinels are the `none` state (any integer beats them), and a stored best is
replaced exactly when the wasted area is strictly smaller, or equal with a
strictly smaller short side. -/
def betterBA : Option (Int × Int × Int × Int × Bool) → Int → Int → Bool
  | none, _, _ => true
  | some (w0, s0, _, _, _), w, s => w < w0 || (w == w0 && s < s0)

/-- maxspace.py `MaxSpaceBin.insertBestArea`: scan every free space, try the
upright and (if allowed) rotated orientation, keep the best (wasted area,
short side) pair, and return a fresh positioned rect or `none`.  The best
state carries `(wastedArea, shortSide, space.x, space.y, isRotated)`; tracking
the chosen space's origin instead of its index is equivalent because the
free-space list is not modified during the scan. -/
def insertBestArea (b : MaxSpaceBin) (rect : Rect) : Option Rect :=
  let best := b.freeRects.foldl
    (fun best maxSpace =>
      let wastedArea := maxSpace.width * maxSpace.height - rect.width * rect.height
      let best :=
        if maxSpace.width ≥ rect.width ∧ maxSpace.height ≥ rect.height then
          let shortSide := min (maxSpace.width - rect.width) (maxSpace.height - rect.height)
          if betterBA best wastedArea shortSide then
            some (wastedArea, shortSide, maxSpace.x, maxSpace.y, false)
          else best
        else best
      if b.canRotate ∧ maxSpace.width ≥ rect.height ∧ maxSpace.height ≥ rect.width then
        let shortSide := min (maxSpace.width - rect.height) (maxSpace.height - rect.width)
        if betterBA best wastedArea shortSide then
          some (wastedArea, shortSide, maxSpace.x, maxSpace.y, true)
        else best
      else best)
    none
  match best with
  | none => none
  | some (w, s, sx, sy, rot) =>
    let newRect := Rect.mkRect rect.width rect.height
    let newRect := if rot then newRect.rotate else newRect
    some { newRect with x := sx, y := sy, score1 := .ofInt w, score2 := .ofInt s }

/-- maxspace.py `MaxSpaceBin.insertTouchingPerimeter`: the sentinel
`largestTouchingPerimeter = -1` is kept as a literal `-1` (a fitting placement
with perimeter `≤ -1` would not be selected, exactly as in the source). -/
def insertTouchingPerimeter (b : MaxSpaceBin) (rect : Rect) : Option Rect :=
  let best := b.freeRects.foldl
    (fun (st : Int × Option (Int × Int × Bool)) maxSpace =>
      let st :=
        if rect.width ≤ maxSpace.width ∧ rect.height ≤ maxSpace.height then
          let perimeter := b.computeTouchingPerimeter maxSpace.x maxSpace.y rect.width rect.height
          if perimeter > st.1 then (perimeter, some (maxSpace.x, maxSpace.y, false)) else st
        else st
      if b.canRotate ∧ rect.height ≤ maxSpace.width ∧ rect.width ≤ maxSpace.height then
        let perimeter := b.computeTouchingPerimeter maxSpace.x maxSpace.y rect.height rect.width
        if perimeter > st.1 then (perimeter, some (maxSpace.x, maxSpace.y, true)) else st
      else st)
    (-1, none)
  match best with
  | (_, none) => none
  | (p, some (sx, sy, rot)) =>
    let newRect := Rect.mkRect rect.width rect.height
    let newRect := if rot then newRect.rotate else newRect
    some { newRect with x := sx, y := sy, score1 := .ofInt (-p) }

/-- The scan loop of maxspace.py `MaxSpaceBin.insertTopRightCornerDistance`.
The best state is `(squared distance, space.x, space.y, isRotated)`; the float
sentinel `-1` is the `none` state (every real distance is `≥ 0 > -1`).  The
rotation branch evaluates the unqualified names `binWidth`/`binHeight`
(maxspace.py line 138), which raises `NameError` the moment a rotated fit is
examined. -/
def trcdLoop (b : MaxSpaceBin) (rect : Rect) :
    List Rect → Option (Int × Int × Int × Bool) → Except EvalErr (Option (Int × Int × Int × Bool))
  | [], st => .ok st
  | maxSpace :: rest, st =>
    let st :=
      if rect.width ≤ maxSpace.width ∧ rect.height ≤ maxSpace.height then
        let dist := computeDistanceSq (maxSpace.x + rect.width) (maxSpace.y + rect.height)
          b.binWidth b.binHeight
        match st with
        | none => some (dist, maxSpace.x, maxSpace.y, false)
        | some (d0, _, _, _) =>
          if dist > d0 then some (dist, maxSpace.x, maxSpace.y, false) else st
      else st
    if b.canRotate ∧ rect.height ≤ maxSpace.width ∧ rect.width ≤ maxSpace.height then
      .error .nameError
    else trcdLoop b rect rest st

/-- maxspace.py `MaxSpaceBin.insertTopRightCornerDistance`. -/
def insertTopRightCornerDistance (b : MaxSpaceBin) (rect : Rect) :
    Except EvalErr (Option Rect) := do
  match ← trcdLoop b rect b.freeRects none with
  | none => pure none
  | some (d, sx, sy, rot) =>
    let newRect := Rect.mkRect rect.width rect.height
    let newRect := if rot then newRect.rotate else newRect
    pure (some { newRect with x := sx, y := sy, score1 := .negSqrt d })

/-- maxspace.py `MaxSpaceBin.evaluatePacking`: record the heuristic on first
use (`if not self.packHeur`), then dispatch.  The three recognized heuristics
are a closed enumeration, so the source's `ValueError` branch is unreachable. -/
def evaluatePacking (b : MaxSpaceBin) (rect : Rect) (heur : PackingHeuristic) :
    Except EvalErr (MaxSpaceBin × Option Rect) :=
  let b := if b.packHeur = none then { b with packHeur := some heur } else b
  match heur with
  | .BestAreaFit => .ok (b, insertBestArea b rect)
  | .TouchingPerimeter => .ok (b, insertTouchingPerimeter b rect)
  | .TopRightCornerDistance => (insertTopRightCornerDistance b rect).map (fun c => (b, c))

/-- The up-to-four residual spaces maxspace.py `generateNewMaxSpaces` appends
for one free space overlapping the packed `rect`: the non-degenerate portions
below, above, left and right of the item, in the source's append order. -/
def splitFreeRect (rect freeRect : Rect) : List Rect :=
  let horiz := rect.x < freeRect.x + freeRect.width ∧ rect.x + rect.width > freeRect.x
  let vert := rect.y < freeRect.y + freeRect.height ∧ rect.y + rect.height > freeRect.y
  (if horiz ∧ rect.y > freeRect.y ∧ rect.y < freeRect.y + freeRect.height then
    [{ freeRect with height := rect.y - freeRect.y }] else []) ++
  (if horiz ∧ rect.y + rect.height > freeRect.y ∧
      rect.y + rect.height < freeRect.y + freeRect.height then
    [{ freeRect with y := rect.y + rect.height,
                     height := freeRect.y + freeRect.height - (rect.y + rect.height) }] else []) ++
  (if vert ∧ rect.x > freeRect.x ∧ rect.x < freeRect.x + freeRect.width then
    [{ freeRect with width := rect.x - freeRect.x }] else []) ++
  (if vert ∧ rect.x + rect.width > freeRect.x ∧
      rect.x + rect.width < freeRect.x + freeRect.width then
    [{ freeRect with x := rect.x + rect.width,
                     width := freeRect.x + freeRect.width - (rect.x + rect.width) }] else [])

/-- maxspace.py `MaxSpaceBin.generateNewMaxSpaces`.  The source's in-place loop
(`pop(i)` on overlap, residuals appended past the saved `numFreeRects` bound,
so they are never re-examined) leaves exactly: the original free spaces that do
not overlap `rect`, in order, followed by the residual splits of the
overlapping ones, grouped in original order. -/
def generateNewMaxSpaces (b : MaxSpaceBin) (rect : Rect) : MaxSpaceBin :=
  { b with freeRects :=
      b.freeRects.filter (fun fr => ! isOverlappingB fr rect) ++
      (b.freeRects.filter (fun fr => isOverlappingB fr rect)).flatMap (splitFreeRect rect) }

/-- Pairs `(index, rect)` of a free-space list starting at index `k`
(`range`-style enumeration used by `pruneMaxSpaces`). -/
def enumFrom (k : ℕ) : List Rect → List (ℕ × Rect)
  | [] => []
  | r :: rs => (k, r) :: enumFrom (k + 1) rs

/-- The inner `j` loop of maxspace.py `pruneMaxSpaces` for outer index `i`:
a later rect contained in `rectI` is marked for removal; the first later rect
that strictly contains `rectI` marks `i` and breaks. -/
def innerScan (i : ℕ) (rectI : Rect) : List (ℕ × Rect) → List ℕ
  | [] => []
  | (j, rectJ) :: rest =>
    if rectJ.isContainedIn rectI then j :: innerScan i rectI rest
    else if rectI.isContainedIn rectJ then [i]
    else innerScan i rectI rest

/-- The set `toRemove` of maxspace.py `pruneMaxSpaces`, as the list of all
indices marked by the nested loops (duplicates are harmless: only membership
is used). -/
def toRemoveAux : List (ℕ × Rect) → List ℕ
  | [] => []
  | (i, rectI) :: rest => innerScan i rectI rest ++ toRemoveAux rest

/-- maxspace.py `MaxSpaceBin.pruneMaxSpaces`: drop every index marked by the
containment scan, and raise `ValueError` if the free-space list empties while
occupancy is below 1. -/
def pruneMaxSpaces (b : MaxSpaceBin) : Except EvalErr MaxSpaceBin :=
  let toRemove := toRemoveAux (enumFrom 0 b.freeRects)
  let tmp := ((enumFrom 0 b.freeRects).filter (fun p => decide (p.1 ∉ toRemove))).map Prod.snd
  let b2 : MaxSpaceBin := { b with freeRects := tmp }
  if tmp.length = 0 ∧ b2.getOccupancy < (1 : ℚ) then Except.error .valueError else Except.ok b2

/-- maxspace.py `MaxSpaceBin.insert`: evaluate first unless the rect already
carries packing info; on `None` report failure with no commit; otherwise
commit, split the overlapping free spaces and prune. -/
def insert (b : MaxSpaceBin) (rect : Rect) (heuristic : PackingHeuristic) :
    Except EvalErr (Bool × MaxSpaceBin) := do
  let (b, newRect) ←
    if ¬ rect.isReadyForPacking then evaluatePacking b rect heuristic
    else pure (b, some rect)
  match newRect with
  | none => pure (false, b)
  | some newRect =>
    let b := b.packRect newRect
    let b := b.generateNewMaxSpaces newRect
    let b ← b.pruneMaxSpaces
    pure (true, b)

end MaxSpaceBin

/-!  The rational arithmetic below is written with `Rat.divInt` and `num`/`den`
manipulation rather than the `ℚ` field operations: the values are identical
(see the `qAdd_eq_add`/`qMul_eq_mul`/`qNeg_eq_neg` lemmas), but these forms
evaluate inside the kernel on concrete inputs. -/

/-- Exact rational addition, `qAdd x y = x + y`. -/
def qAdd (x y : ℚ) : ℚ :=
  Rat.divInt (x.num * (y.den : Int) + y.num * (x.den : Int)) ((x.den : Int) * (y.den : Int))

/-- Exact rational multiplication, `qMul x y = x * y`. -/
def qMul (x y : ℚ) : ℚ :=
  Rat.divInt (x.num * y.num) ((x.den : Int) * (y.den : Int))

/-- Exact rational negation, `qNeg x = -x`. -/
def qNeg (x : ℚ) : ℚ :=
  Rat.divInt (-x.num) (x.den : Int)

/-- The rational value `2 ^ k` for an integer exponent. -/
def pow2 (k : Int) : ℚ :=
  if 0 ≤ k then ((2 ^ k.toNat : Int) : ℚ) else Rat.divInt 1 (2 ^ (-k).toNat)

/-- Python `int(x)` on a float value: truncation toward zero. -/
def pyTrunc (q : ℚ) : Int :=
  if 0 ≤ q then ⌊q⌋ else -⌊qNeg q⌋

/-- Round-half-to-even of a rational to an integer (the IEEE-754 default
rounding applied to the scaled mantissa), computed on the numerator and
denominator: `fl` is the floor, `r` the remainder in `[0, den)`, and the
fractional part is compared with `1/2` by cross-multiplication. -/
def rhe (x : ℚ) : Int :=
  let n := x.num
  let d : Int := (x.den : Int)
  let fl := n.fdiv d
  let r := n - fl * d
  if 2 * r < d then fl
  else if d < 2 * r then fl + 1
  else if fl % 2 = 0 then fl else fl + 1

/-- Fuel-driven search (upward) for the binary exponent `e` with
`2 ^ e ≤ q < 2 ^ (e+1)`, for `q ≥ 1`. -/
def qExpUp : ℕ → Int → ℚ → Int
  | 0, e, _ => e
  | fuel + 1, e, q => if pow2 (e + 1) ≤ q then qExpUp fuel (e + 1) q else e

/-- Fuel-driven search (downward) for the binary exponent, for `0 < q < 1`. -/
def qExpDown : ℕ → Int → ℚ → Int
  | 0, e, _ => e
  | fuel + 1, e, q => if q < pow2 e then qExpDown fuel (e - 1) q else e

/-- Binary exponent of a positive rational (fuel covers the entire finite
double range and far beyond any value occurring here). -/
def qExp (q : ℚ) : Int :=
  if 1 ≤ q then qExpUp 4200 0 q else qExpDown 4200 0 q

/-- Correctly rounded IEEE-754 binary64 value of a positive rational
(normal range; overflow and subnormals do not occur for the integer ratios
this development evaluates). -/
def roundPos (q : ℚ) : ℚ :=
  let e := qExp q
  let m := rhe (qMul q (pow2 (52 - e)))
  qMul ((m : ℚ)) (pow2 (e - 52))

/-- Correctly rounded IEEE-754 binary64 value of a rational: the exact value
a Python float computation produces. -/
def roundDouble (q : ℚ) : ℚ :=
  if q = 0 then 0 else if q < 0 then qNeg (roundPos (qNeg q)) else roundPos q

/-- Python `a / b` on two ints: true division, correctly rounded to binary64
(`Rat.divInt a b` is the exact quotient `(a : ℚ) / (b : ℚ)`). -/
def fdiv (a b : Int) : ℚ :=
  roundDouble (Rat.divInt a b)

/-- Python float addition: exact sum, rounded. -/
def fadd (x y : ℚ) : ℚ :=
  roundDouble (qAdd x y)

/-- Python float multiplication: exact product, rounded. -/
def fmul (x y : ℚ) : ℚ :=
  roundDouble (qMul x y)

/-- solution.py `RBPSolution` state.  `rectList`, `numRects` and `lowerbnd`
start as Python `None`. -/
structure RBPSolution where
  binWidth : Int
  binHeight : Int
  binList : List MaxSpaceBin
  rectList : Option (List Rect)
  numRects : Option ℕ
  lowerbnd : Option Int
deriving DecidableEq, Repr

/-- solution.py `RBPSolution.__init__`. -/
def mkSolution (w h : Int) : RBPSolution :=
  { binWidth := w, binHeight := h, binList := [], rectList := none,
    numRects := none, lowerbnd := none }

/-- Python truthiness of an optional list (`None` and `[]` are falsy). -/
def optListTruthy : Option (List Rect) → Bool
  | none => false
  | some l => ! l.isEmpty

/-- Python falsiness of an optional int (`None` and `0` are falsy). -/
def optIntFalsy : Option Int → Bool
  | none => true
  | some v => v == 0

namespace RBPSolution

/-- solution.py `RBPSolution.computeLowerBound`:
`int(area/(binWidth*binHeight) + 1)` — note that `/` is Python float division,
embedded by the correctly rounded `fdiv`, and `+ 1` is float addition. -/
def computeLowerBound (s : RBPSolution) (rectList : List Rect) : Int :=
  let area := rectList.foldl (fun a r => a + r.width * r.height) 0
  pyTrunc (fadd (fdiv area (s.binWidth * s.binHeight)) 1)

/-- solution.py `RBPSolution.openNewBin`: a fresh initialized MaxSpaceBin. -/
def openNewBin (s : RBPSolution) : MaxSpaceBin :=
  MaxSpaceBin.mkBin s.binWidth s.binHeight

/-- The per-item evaluation scan of solution.py `RBPSolution.pack`: evaluate
the item against every open bin in order, threading each bin's state (the
evaluation records `packHeur` on first use). -/
def evalAll (heur : PackingHeuristic) (cur : Rect) :
    List MaxSpaceBin → Except EvalErr (List (MaxSpaceBin × Option Rect))
  | [] => .ok []
  | b :: bs => do
    let r ← b.evaluatePacking cur heur
    let rest ← evalAll heur cur bs
    pure (r :: rest)

/-- The best-bin selection of solution.py `RBPSolution.pack`: a candidate with
strictly better `score1`, or equal `score1` and strictly better `score2`,
replaces the best so far (both best values start at `float('inf')`). -/
def selectBestAux : ℕ → Score → Score → Option (ℕ × Rect) → List (Option Rect) → Option (ℕ × Rect)
  | _, _, _, best, [] => best
  | i, v1, v2, best, none :: rest => selectBestAux (i + 1) v1 v2 best rest
  | i, v1, v2, best, some nr :: rest =>
    if nr.score1.lt v1 || (nr.score1.beq v1 && nr.score2.lt v2) then
      selectBestAux (i + 1) nr.score1 nr.score2 (some (i, nr)) rest
    else selectBestAux (i + 1) v1 v2 best rest

/-- One iteration of the item loop in solution.py `RBPSolution.pack`: find the
best bin for `curRect`; insert the evaluated candidate there, or open a new
bin and insert into it, appending it to the bin list whether or not the
insertion succeeded (the boolean result is discarded by the source).  The
source calls `curRect.removePackingInfo()` before each per-bin evaluation;
evaluation depends only on the item's dimensions and the bin list is nonempty
in every call `pack` makes, so the reset is threaded once up front. -/
def packOneRect (binW binH : Int) (heur : PackingHeuristic)
    (bins : List MaxSpaceBin) (curRect : Rect) : Except EvalErr (List MaxSpaceBin) := do
  let cur := if bins.isEmpty then curRect else curRect.removePackingInfo
  let evald ← evalAll heur cur bins
  let bins := evald.map Prod.fst
  match selectBestAux 0 .inf .inf none (evald.map Prod.snd) with
  | some (i, bestRect) => do
    let (_, b) ← (bins.getD i default).insert bestRect heur
    pure (bins.set i b)
  | none => do
    let newBin := MaxSpaceBin.mkBin binW binH
    let (_, newBin) ← newBin.insert cur heur
    pure (bins ++ [newBin])

/-- solution.py `RBPSolution.pack`: reset the bin list, adopt a truthy
`rectList` argument, compute the lower bound once per solution lifetime
(`if not self.lowerbnd`, using the *parameter*, so a first call without items
raises `TypeError`), pre-open one or `lowerbnd` bins, then place the items in
order.  The working items end up with their packing info reset (the source
mutates each item in the evaluation loop; copies are what get packed). -/
def pack (s : RBPSolution) (rectListArg : Option (List Rect)) (heur : PackingHeuristic)
    (first : Bool) : Except EvalErr RBPSolution := do
  let s := { s with binList := ([] : List MaxSpaceBin) }
  let s := if optListTruthy rectListArg then { s with rectList := rectListArg } else s
  let s ←
    if optIntFalsy s.lowerbnd then
      match rectListArg with
      | none => Except.error .typeError
      | some l =>
        pure { s with numRects := some l.length, lowerbnd := some (s.computeLowerBound l) }
    else pure s
  let lb : Int := s.lowerbnd.getD 0
  let bins0 := if ¬ first then List.replicate lb.toNat s.openNewBin else [s.openNewBin]
  match s.rectList with
  | none => Except.error .typeError
  | some items => do
    let finalBins ← items.foldlM (packOneRect s.binWidth s.binHeight heur) bins0
    pure { s with binList := finalBins,
                  rectList := some (items.map Rect.removePackingInfo) }

/-- The bin scan of solution.py `RBPSolution.getLeastFilledBin` (`least`
starts at `2`; any occupancy outside `(0, 1]` raises
`RuntimeError("Wrong occupancy")`). -/
def llbLoop : List MaxSpaceBin → ℚ → Option MaxSpaceBin → Except EvalErr (Option MaxSpaceBin)
  | [], _, leastFilled => .ok leastFilled
  | abin :: rest, least, leastFilled =>
    if abin.getOccupancy ≤ 0 ∨ abin.getOccupancy > 1 then Except.error .runtimeWrongOccupancy
    else if abin.getOccupancy < least then llbLoop rest abin.getOccupancy (some abin)
    else llbLoop rest least leastFilled

/-- solution.py `RBPSolution.getLeastFilledBin`. -/
def getLeastFilledBin (s : RBPSolution) : Except EvalErr (Option MaxSpaceBin) :=
  llbLoop s.binList 2 none

/-- solution.py `RBPSolution.getNumberOfBins`. -/
def getNumberOfBins (s : RBPSolution) : ℕ :=
  s.binList.length

/-- solution.py `RBPSolution.solutionValue`:
`getNumberOfBins() + getLeastFilledBin().getOccupancy()`.  When the bin list
is empty `getLeastFilledBin` returns `None` and the attribute access raises. -/
def solutionValue (s : RBPSolution) : Except EvalErr ℚ := do
  match ← s.getLeastFilledBin with
  | none => Except.error .attributeError
  | some b => pure (fadd (s.getNumberOfBins : ℚ) b.getOccupancy)

/-- solution.py `RBPSolution.swap`: exchange two positions of the sublist. -/
def swap (subList : List Rect) (idx1 idx2 : ℕ) : List Rect :=
  (subList.set idx1 (subList.getD idx2 (Rect.mkRect 0 0))).set idx2
    (subList.getD idx1 (Rect.mkRect 0 0))

end RBPSolution

/-- The pseudo-random outcomes consumed by one call of solution.py
`RBPSolution.perturb`: the value `0.025 + 0.125*rng.random()` and, for each
swap iteration, the index pair `(idx1, idx2)` after the source's
`while idx2 == idx1` retry loop has resolved. -/
structure PerturbOracle where
  strength : ℚ
  pick : ℕ → ℕ × ℕ

namespace RBPSolution

/-- The swap loop of solution.py `RBPSolution.perturb`. -/
def applySwaps (pick : ℕ → ℕ × ℕ) : ℕ → List Rect → List Rect
  | 0, l => l
  | t + 1, l => applySwaps pick t (swap l (pick t).1 (pick t).2)

/-- The number of swaps solution.py `RBPSolution.perturb` performs: `0` for a
sublist of length at most 2 (the early return), otherwise
`max(int(strength*len + 0.5), 1)`. -/
def perturbSwapCount (o : PerturbOracle) (l : List Rect) : ℕ :=
  if l.length ≤ 2 then 0
  else max (pyTrunc (qAdd (qMul o.strength ((l.length : ℕ) : ℚ)) (Rat.divInt 1 2))).toNat 1

/-- solution.py `RBPSolution.perturb`. -/
def perturb (o : PerturbOracle) (l : List Rect) : List Rect :=
  applySwaps o.pick (perturbSwapCount o l) l

end RBPSolution

/-- Normalization of a Python slice index against a list length: negative
indices count from the end, and the result is clamped to `[0, len]`. -/
def pySliceIdx (len : ℕ) (i : Int) : ℕ :=
  if i ≥ 0 then min i.toNat len else ((len : Int) + i).toNat

namespace RBPSolution

/-- solution.py `RBPSolution.removeAndRepack`: validate the percentage, require
items, compute the removal count `max(int(percentage*numRects + 1), 2)`, slice
that many items off the head (`reverse=True`) or tail, sort them by descending
area or perturb them, write the sub-range back into the same slice, and re-pack
the whole working list (`self.pack(heur=heur, first=first)`). -/
def removeAndRepack (s : RBPSolution) (heur : PackingHeuristic) (percentage : ℚ)
    (reverse sort : Bool) (first : Bool) (o : PerturbOracle) : Except EvalErr RBPSolution := do
  if percentage < 0 ∨ percentage > 1 then Except.error .valueErrorPercentage
  else if ¬ optListTruthy s.rectList then Except.error .runtimeNoItems
  else
    match s.numRects with
    | none => Except.error .typeError
    | some n => do
      let items := s.rectList.getD []
      let number := pyTrunc (fadd (fmul percentage (n : ℚ)) 1)
      let number := max number 2
      let subList :=
        if reverse then items.take (pySliceIdx items.length number)
        else items.drop (pySliceIdx items.length ((n : Int) - number))
      let subList :=
        if sort then
          subList.mergeSort (fun a b => decide (b.width * b.height ≤ a.width * a.height))
        else perturb o subList
      let items :=
        if reverse then subList ++ items.drop (pySliceIdx items.length number)
        else items.take (pySliceIdx items.length ((n : Int) - number)) ++ subList
      pack { s with rectList := some items } none heur first

end RBPSolution

/-- A rectangle's closed extent lies inside the bin `[0, binWidth] × [0, binHeight]`. -/
def insideBin (b : MaxSpaceBin) (r : Rect) : Prop :=
  0 ≤ r.x ∧ 0 ≤ r.y ∧ r.x + r.width ≤ b.binWidth ∧ r.y + r.height ≤ b.binHeight

/-- Neither rectangle is contained in (or equal to) the other. -/
def nonNested (a b : Rect) : Prop :=
  a.isContainedIn b = false ∧ b.isContainedIn a = false

/-- The free-space invariants of the spec: every free space inside the bin,
no free space overlapping the interior of any packed item, and no free space
contained in (or equal to) another entry of the free-space set. -/
def binFreeSpaceInv (b : MaxSpaceBin) : Prop :=
  (∀ fr ∈ b.freeRects, insideBin b fr) ∧
  (∀ fr ∈ b.freeRects, ∀ p ∈ b.packedRects, MaxSpaceBin.isOverlappingB fr p = false) ∧
  b.freeRects.Pairwise nonNested

/-- Bins reachable from a freshly set-up `MaxSpaceBin` (with either rotation
setting) by any sequence of `insert` calls that complete without raising;
`insert` leaves the geometry untouched when it returns `False`. -/
inductive ReachableBin : MaxSpaceBin → Prop where
  | setup (w h : Int) (rot : Bool) :
      ReachableBin { MaxSpaceBin.mkBin w h with canRotate := rot }
  | step (b : MaxSpaceBin) (r : Rect) (heur : PackingHeuristic) (flag : Bool)
      (b' : MaxSpaceBin) (hb : ReachableBin b)
      (hstep : b.insert r heur = .ok (flag, b')) : ReachableBin b'

/-- Modelled from the spec: the touching-perimeter formula as claim C6 words
it, with part (a) contributing the candidate's height once *for each* of the
left and right bin edges it coincides with (and likewise the width for bottom
and top), and part (b) as in the source.  Written only for comparison with
`MaxSpaceBin.computeTouchingPerimeter`. -/
def claimTouchingPerimeter (b : MaxSpaceBin) (x y width height : Int) : Int :=
  (if x = 0 then height else 0) + (if x + width = b.binWidth then height else 0) +
  (if y = 0 then width else 0) + (if y + height = b.binHeight then width else 0) +
  (b.packedRects.map (fun rect =>
    (if rect.x + rect.width = x ∨ x + width = rect.x then
      Rect.computeCommonLength y (y + height) rect.y (rect.y + rect.height) else 0) +
    (if rect.y = y + height ∨ rect.y + rect.height = y then
      Rect.computeCommonLength x (x + width) rect.x (rect.x + rect.width) else 0))).sum

section Lemmas

open MaxSpaceBin RBPSolution

/-- Propositional form of `Rect.isContainedIn`. -/
theorem isContainedIn_iff (a b : Rect) :
    a.isContainedIn b = true ↔
      a.x ≥ b.x ∧ a.y ≥ b.y ∧ a.x + a.width ≤ b.x + b.width ∧
      a.y + a.height ≤ b.y + b.height := by
  simp [Rect.isContainedIn]

/-- Propositional form of a failed `Bin.isOverlapping` test. -/
theorem isOverlappingB_eq_false_iff (a b : Rect) :
    isOverlappingB a b = false ↔
      a.x ≥ b.x + b.width ∨ a.x + a.width ≤ b.x ∨
      a.y ≥ b.y + b.height ∨ a.y + a.height ≤ b.y := by
  simp only [MaxSpaceBin.isOverlappingB, Bool.not_eq_false', decide_eq_true_eq,
    Bool.not_eq_true, decide_eq_false_iff_not]
  omega

/-- Closed containment is reflexive. -/
theorem isContainedIn_refl (a : Rect) : a.isContainedIn a = true := by
  simp [Rect.isContainedIn]

/-- Containment transports the inside-the-bin property. -/
theorem insideBin_of_contained (b : MaxSpaceBin) (r r' : Rect)
    (h : r'.isContainedIn r = true) (hr : insideBin b r) : insideBin b r' := by
  rw [isContainedIn_iff] at h
  unfold insideBin at *
  omega

/-- Containment transports overlap-freedom. -/
theorem notOverlap_of_contained (r' r p : Rect)
    (h : r'.isContainedIn r = true) (hp : isOverlappingB r p = false) :
    isOverlappingB r' p = false := by
  rw [isContainedIn_iff] at h
  rw [isOverlappingB_eq_false_iff] at *
  omega

end Lemmas

/-- C5: for rectangles with positive widths and heights, the overlap test
(`Rect.isOverlapping` and the shared `Bin.isOverlapping`) returns true iff the
interiors intersect on both axes; mere touching (shared edge or corner) gives
false. -/
theorem c5_overlap_iff_interiors (a b : Rect)
    (haw : 0 < a.width) (hah : 0 < a.height) (hbw : 0 < b.width) (hbh : 0 < b.height) :
    (a.isOverlapping b = true ↔
      (max a.x b.x < min (a.x + a.width) (b.x + b.width) ∧
       max a.y b.y < min (a.y + a.height) (b.y + b.height))) ∧
    (MaxSpaceBin.isOverlappingB a b = true ↔
      (max a.x b.x < min (a.x + a.width) (b.x + b.width) ∧
       max a.y b.y < min (a.y + a.height) (b.y + b.height))) := by
  constructor
  · unfold Rect.isOverlapping Rect.computeCommonLength
    split_ifs <;> simp_all <;> omega
  · simp only [MaxSpaceBin.isOverlappingB, Bool.not_eq_true', decide_eq_false_iff_not,
      not_or, not_le]
    omega

theorem c5_witness :
    ((Rect.mk 2 2 0 0 .inf .inf).isOverlapping (Rect.mk 2 2 1 1 .inf .inf) = true ↔
      (max (0:ℤ) 1 < min ((0:ℤ) + 2) (1 + 2) ∧ max (0:ℤ) 1 < min ((0:ℤ) + 2) (1 + 2))) ∧
    (MaxSpaceBin.isOverlappingB (Rect.mk 2 2 0 0 .inf .inf) (Rect.mk 2 2 1 1 .inf .inf) = true ↔
      (max (0:ℤ) 1 < min ((0:ℤ) + 2) (1 + 2) ∧ max (0:ℤ) 1 < min ((0:ℤ) + 2) (1 + 2))) :=
  c5_overlap_iff_interiors (Rect.mk 2 2 0 0 .inf .inf) (Rect.mk 2 2 1 1 .inf .inf)
    (by decide) (by decide) (by decide) (by decide)

/-- Accumulating a sum through `List.foldl` equals the initial value plus the
mapped sum. -/
theorem foldl_add_sum (f : Rect → Int) : ∀ (l : List Rect) (a : Int),
    l.foldl (fun acc r => acc + f r) a = a + (l.map f).sum := by
  intro l
  induction l with
  | nil => simp
  | cons hd tl ih => intro a; simp [List.foldl_cons, ih, add_assoc]

/-- C6 (amended): `computeTouchingPerimeter` equals the bin-edge part —
height added *once* when the candidate coincides with the left *or* right bin
edge, width once for bottom or top — plus, for each packed item, the shared
boundary length on each side where the two rectangles are edge-adjacent. -/
theorem c6_amended (b : MaxSpaceBin) (x y width height : Int) :
    b.computeTouchingPerimeter x y width height =
      (if x = 0 ∨ x + width = b.binWidth then height else 0) +
      (if y = 0 ∨ y + height = b.binHeight then width else 0) +
      (b.packedRects.map (fun rect =>
        (if rect.x + rect.width = x ∨ x + width = rect.x then
          Rect.computeCommonLength y (y + height) rect.y (rect.y + rect.height) else 0) +
        (if rect.y = y + height ∨ rect.y + rect.height = y then
          Rect.computeCommonLength x (x + width) rect.x (rect.x + rect.width) else 0))).sum := by
  unfold MaxSpaceBin.computeTouchingPerimeter
  have hbody :
      (fun (perimeter : Int) (rect : Rect) =>
        let perimeter :=
          if rect.x + rect.width = x ∨ x + width = rect.x then
            perimeter + Rect.computeCommonLength y (y + height) rect.y (rect.y + rect.height)
          else perimeter
        if rect.y = y + height ∨ rect.y + rect.height = y then
          perimeter + Rect.computeCommonLength x (x + width) rect.x (rect.x + rect.width)
        else perimeter) =
      fun (perimeter : Int) (rect : Rect) => perimeter +
        ((if rect.x + rect.width = x ∨ x + width = rect.x then
          Rect.computeCommonLength y (y + height) rect.y (rect.y + rect.height) else 0) +
        (if rect.y = y + height ∨ rect.y + rect.height = y then
          Rect.computeCommonLength x (x + width) rect.x (rect.x + rect.width) else 0)) := by
    funext perimeter rect
    dsimp only
    split_ifs <;> ring
  rw [hbody, foldl_add_sum]

/-- C6 (counterexample): a 5-wide candidate in a 5-wide empty bin touches both
the left and right bin edges; the code adds its height once (total 2), while
the claim's per-edge reading demands height twice (total 4). -/
theorem c6_counterexample :
    (MaxSpaceBin.mkBin 5 5).computeTouchingPerimeter 0 1 5 2 = 2 ∧
    claimTouchingPerimeter (MaxSpaceBin.mkBin 5 5) 0 1 5 2 = 4 ∧
    (2 : Int) ≠ 4 :=
  ⟨by decide, by decide, by decide⟩

/-- C2 (code bug): with rotation enabled, `evaluatePacking` under
`TopRightCornerDistance` raises `NameError` (the rotation branch of
`insertTopRightCornerDistance` evaluates the unqualified names
`binWidth`/`binHeight`) as soon as a rotated fit is examined — here a 4×6 item
in a fresh 10×10 bin — instead of returning a candidate or `None`. -/
theorem c2_trcd_rotation_raises :
    ({ MaxSpaceBin.mkBin 10 10 with canRotate := true }).evaluatePacking
      (Rect.mkRect 4 6) .TopRightCornerDistance = .error .nameError := by
  decide

/-- The helper `qAdd` is exact rational addition. -/
theorem qAdd_eq_add (x y : ℚ) : qAdd x y = x + y := by
  have hx : (x.den : Int) ≠ 0 := by exact_mod_cast (Rat.den_nz x)
  have hy : (y.den : Int) ≠ 0 := by exact_mod_cast (Rat.den_nz y)
  rw [qAdd, ← Rat.divInt_add_divInt _ _ hx hy, Rat.num_divInt_den, Rat.num_divInt_den]

/-- C4 (amended): `computeLowerBound` is `int(area/binArea + 1)` in IEEE double
arithmetic; whenever the float division and the subsequent `+ 1` happen to be
exact (the `fdiv`/`fadd` hypotheses) — in particular for every modest exact
multiple — it equals `floor(area/binArea) + 1`, strictly greater than the
exact quotient. -/
theorem c4_lower_bound_exact (s : RBPSolution) (items : List Rect) (area binArea : Int)
    (harea : area = items.foldl (fun a r => a + r.width * r.height) 0)
    (hbin : binArea = s.binWidth * s.binHeight)
    (hpos : 0 ≤ Rat.divInt area binArea)
    (h1 : fdiv area binArea = Rat.divInt area binArea)
    (h2 : fadd (Rat.divInt area binArea) 1 = qAdd (Rat.divInt area binArea) 1) :
    s.computeLowerBound items = ⌊(area : ℚ) / (binArea : ℚ)⌋ + 1 := by
  have hstep : s.computeLowerBound items = pyTrunc (fadd (fdiv area binArea) 1) := by
    unfold RBPSolution.computeLowerBound
    rw [← harea, ← hbin]
  rw [hstep, h1, h2, qAdd_eq_add]
  unfold pyTrunc
  rw [if_pos (by linarith)]
  rw [Int.floor_add_one, Rat.divInt_eq_div]

theorem c4_witness :
    (mkSolution 10 10).computeLowerBound [Rect.mkRect 20 10] =
      ⌊(200 : ℚ) / ((100 : Int) : ℚ)⌋ + 1 :=
  c4_lower_bound_exact (mkSolution 10 10) [Rect.mkRect 20 10] 200 100
    (by decide) (by decide) (by decide) (by decide) (by decide)

/-- C4 (counterexample): the source divides with Python float `/`, not exact
integer arithmetic.  For a 10⁸×10⁸ bin and a single (2·10¹⁶−1)×1 item the
true quotient 1.9999999999999999 rounds to 2.0, so the code returns 3 while
`floor(area/binArea) + 1 = 2`. -/
theorem c4_counterexample :
    (mkSolution 100000000 100000000).computeLowerBound [Rect.mkRect 19999999999999999 1] = 3 ∧
    Rat.divInt 19999999999999999 10000000000000000 =
      (19999999999999999 : ℚ) / ((100000000 : ℚ) * 100000000) ∧
    ⌊Rat.divInt 19999999999999999 10000000000000000⌋ + 1 = 2 ∧
    (3 : Int) ≠ 2 :=
  ⟨by decide, by rw [Rat.divInt_eq_div]; norm_num, by decide, by decide⟩

/-- `evaluatePacking` returning normally only records the heuristic: the
returned bin is the input bin with `packHeur` set on first use and every other
field untouched. -/
theorem evaluatePacking_ok_bin {b : MaxSpaceBin} {r : Rect} {heur : PackingHeuristic}
    {b' : MaxSpaceBin} {cand : Option Rect}
    (h : b.evaluatePacking r heur = .ok (b', cand)) :
    b' = if b.packHeur = none then { b with packHeur := some heur } else b := by
  cases heur <;> simp only [MaxSpaceBin.evaluatePacking] at h
  case BestAreaFit =>
    injection h with h1
    injection h1 with hb hc
    exact hb.symm
  case TouchingPerimeter =>
    injection h with h1
    injection h1 with hb hc
    exact hb.symm
  case TopRightCornerDistance =>
    cases hres : MaxSpaceBin.insertTopRightCornerDistance
        (if b.packHeur = none then { b with packHeur := some .TopRightCornerDistance } else b) r with
    | error e => rw [hres] at h; simp [Except.map] at h
    | ok c =>
      rw [hres] at h
      simp only [Except.map] at h
      injection h with h1
      injection h1 with hb hc
      exact hb.symm

/-- C7 (counterexample): evaluating an item against a fresh bin mutates a bin
field — `packHeur` goes from `None` to the heuristic — so "each call leaves
all bin fields unchanged" fails on the first call. -/
theorem c7_counterexample :
    Except.map (fun p => p.1.packHeur)
        ((MaxSpaceBin.mkBin 10 10).evaluatePacking (Rect.mkRect 3 3) .BestAreaFit) =
      .ok (some .BestAreaFit) ∧
    (MaxSpaceBin.mkBin 10 10).packHeur = none ∧
    some PackingHeuristic.BestAreaFit ≠ none :=
  ⟨by decide, by decide, by decide⟩

/-- C7 (amended): a normal `evaluatePacking` call leaves the packed-item set,
free-space set, occupied area and every other bin field unchanged except
`packHeur`, which is set to the heuristic on first use; and re-evaluating the
same item against the returned state yields the identical candidate and the
identical state. -/
theorem c7_evaluate_idempotent {b : MaxSpaceBin} {r : Rect} {heur : PackingHeuristic}
    {b' : MaxSpaceBin} {cand : Option Rect}
    (h : b.evaluatePacking r heur = .ok (b', cand)) :
    b'.binWidth = b.binWidth ∧ b'.binHeight = b.binHeight ∧
    b'.occupiedArea = b.occupiedArea ∧ b'.touchingPerimeter = b.touchingPerimeter ∧
    b'.packedRects = b.packedRects ∧ b'.freeRects = b.freeRects ∧
    b'.canRotate = b.canRotate ∧
    b'.packHeur = (if b.packHeur = none then some heur else b.packHeur) ∧
    b'.evaluatePacking r heur = .ok (b', cand) := by
  have hb' := evaluatePacking_ok_bin h
  have hfields : b'.binWidth = b.binWidth ∧ b'.binHeight = b.binHeight ∧
      b'.occupiedArea = b.occupiedArea ∧ b'.touchingPerimeter = b.touchingPerimeter ∧
      b'.packedRects = b.packedRects ∧ b'.freeRects = b.freeRects ∧
      b'.canRotate = b.canRotate ∧
      b'.packHeur = (if b.packHeur = none then some heur else b.packHeur) := by
    rw [hb']
    cases hph : b.packHeur <;> simp [hph]
  refine ⟨hfields.1, hfields.2.1, hfields.2.2.1, hfields.2.2.2.1, hfields.2.2.2.2.1,
    hfields.2.2.2.2.2.1, hfields.2.2.2.2.2.2.1, hfields.2.2.2.2.2.2.2, ?_⟩
  have hne : ¬ b'.packHeur = none := by
    rw [hfields.2.2.2.2.2.2.2]
    cases hph : b.packHeur <;> simp [hph]
  have hupd : (if b'.packHeur = none then { b' with packHeur := some heur } else b') = b' :=
    if_neg hne
  have hb'e : (if b.packHeur = none then { b with packHeur := some heur } else b) = b' := hb'.symm
  cases heur <;> simp only [MaxSpaceBin.evaluatePacking] at h ⊢ <;> rw [hupd] <;>
    rw [hb'e] at h <;> exact h

theorem c7_witness :
    (MaxSpaceBin.mk 10 10 0 0 [] [Rect.mk 10 10 0 0 .inf .inf] false
        (some .BestAreaFit)).binWidth = (MaxSpaceBin.mkBin 10 10).binWidth ∧
    (MaxSpaceBin.mk 10 10 0 0 [] [Rect.mk 10 10 0 0 .inf .inf] false
        (some .BestAreaFit)).binHeight = (MaxSpaceBin.mkBin 10 10).binHeight ∧
    (MaxSpaceBin.mk 10 10 0 0 [] [Rect.mk 10 10 0 0 .inf .inf] false
        (some .BestAreaFit)).occupiedArea = (MaxSpaceBin.mkBin 10 10).occupiedArea ∧
    (MaxSpaceBin.mk 10 10 0 0 [] [Rect.mk 10 10 0 0 .inf .inf] false
        (some .BestAreaFit)).touchingPerimeter = (MaxSpaceBin.mkBin 10 10).touchingPerimeter ∧
    (MaxSpaceBin.mk 10 10 0 0 [] [Rect.mk 10 10 0 0 .inf .inf] false
        (some .BestAreaFit)).packedRects = (MaxSpaceBin.mkBin 10 10).packedRects ∧
    (MaxSpaceBin.mk 10 10 0 0 [] [Rect.mk 10 10 0 0 .inf .inf] false
        (some .BestAreaFit)).freeRects = (MaxSpaceBin.mkBin 10 10).freeRects ∧
    (MaxSpaceBin.mk 10 10 0 0 [] [Rect.mk 10 10 0 0 .inf .inf] false
        (some .BestAreaFit)).canRotate = (MaxSpaceBin.mkBin 10 10).canRotate ∧
    (MaxSpaceBin.mk 10 10 0 0 [] [Rect.mk 10 10 0 0 .inf .inf] false
        (some .BestAreaFit)).packHeur =
      (if (MaxSpaceBin.mkBin 10 10).packHeur = none then some .BestAreaFit
       else (MaxSpaceBin.mkBin 10 10).packHeur) ∧
    (MaxSpaceBin.mk 10 10 0 0 [] [Rect.mk 10 10 0 0 .inf .inf] false
        (some .BestAreaFit)).evaluatePacking (Rect.mkRect 3 3) .BestAreaFit =
      .ok (MaxSpaceBin.mk 10 10 0 0 [] [Rect.mk 10 10 0 0 .inf .inf] false (some .BestAreaFit),
           some (Rect.mk 3 3 0 0 (.ofInt 91) (.ofInt 7))) :=
  @c7_evaluate_idempotent (MaxSpaceBin.mkBin 10 10) (Rect.mkRect 3 3) .BestAreaFit
    (MaxSpaceBin.mk 10 10 0 0 [] [Rect.mk 10 10 0 0 .inf .inf] false (some .BestAreaFit))
    (some (Rect.mk 3 3 0 0 (.ofInt 91) (.ofInt 7))) (by decide)

/-- The scan of `getLeastFilledBin` raises `RuntimeError("Wrong occupancy")`
whenever some bin in the list has occupancy outside `(0, 1]` — in particular
an empty bin, whose occupancy is exactly 0. -/
theorem llbLoop_error (l : List MaxSpaceBin) :
    ∀ (least : ℚ) (lf : Option MaxSpaceBin),
      (∃ b ∈ l, b.getOccupancy = 0) →
      RBPSolution.llbLoop l least lf = .error .runtimeWrongOccupancy := by
  induction l with
  | nil => intro least lf h; simp at h
  | cons a rest ih =>
    intro least lf h
    obtain ⟨b, hb, hocc⟩ := h
    unfold RBPSolution.llbLoop
    by_cases ha : a.getOccupancy ≤ 0 ∨ a.getOccupancy > 1
    · rw [if_pos ha]
    · rw [if_neg ha]
      have hb' : b ∈ rest := by
        cases List.mem_cons.mp hb with
        | inl heq => exact absurd (heq ▸ hocc) (by push_neg at ha; intro h0; linarith [ha.1])
        | inr h' => exact h'
      by_cases hlt : a.getOccupancy < least
      · rw [if_pos hlt]; exact ih _ _ ⟨b, hb', hocc⟩
      · rw [if_neg hlt]; exact ih _ _ ⟨b, hb', hocc⟩

/-- C10: if any bin of the solution is empty (occupancy exactly 0) — as
`pack` can produce by pre-opening `lowerbnd` bins — `getLeastFilledBin`, and
therefore `solutionValue`, raises `RuntimeError("Wrong occupancy")` instead of
returning a value. -/
theorem c10_empty_bin_raises (s : RBPSolution)
    (h : ∃ b ∈ s.binList, b.getOccupancy = 0) :
    s.getLeastFilledBin = .error .runtimeWrongOccupancy ∧
    s.solutionValue = .error .runtimeWrongOccupancy := by
  have h1 : s.getLeastFilledBin = .error .runtimeWrongOccupancy :=
    llbLoop_error s.binList 2 none h
  refine ⟨h1, ?_⟩
  unfold RBPSolution.solutionValue
  rw [h1]
  rfl

/-- The concrete solution `pack` produces for a 2×2 bin and one 2×2 item: the
lower bound `int(4/4 + 1) = 2` pre-opens two bins and the single item fills
the first, leaving the second bin empty. -/
theorem c10_witness :
    (mkSolution 2 2).pack (some [Rect.mkRect 2 2]) .BestAreaFit false =
      .ok (RBPSolution.mk 2 2
        [MaxSpaceBin.mk 2 2 4 0 [Rect.mk 2 2 0 0 (.ofInt 0) (.ofInt 0)] [] false
            (some .BestAreaFit),
         MaxSpaceBin.mk 2 2 0 0 [] [Rect.mk 2 2 0 0 .inf .inf] false (some .BestAreaFit)]
        (some [Rect.mk 2 2 (-1) (-1) .inf .inf]) (some 1) (some 2)) ∧
    (RBPSolution.mk 2 2
        [MaxSpaceBin.mk 2 2 4 0 [Rect.mk 2 2 0 0 (.ofInt 0) (.ofInt 0)] [] false
            (some .BestAreaFit),
         MaxSpaceBin.mk 2 2 0 0 [] [Rect.mk 2 2 0 0 .inf .inf] false (some .BestAreaFit)]
        (some [Rect.mk 2 2 (-1) (-1) .inf .inf]) (some 1) (some 2)).getLeastFilledBin =
      .error .runtimeWrongOccupancy ∧
    (RBPSolution.mk 2 2
        [MaxSpaceBin.mk 2 2 4 0 [Rect.mk 2 2 0 0 (.ofInt 0) (.ofInt 0)] [] false
            (some .BestAreaFit),
         MaxSpaceBin.mk 2 2 0 0 [] [Rect.mk 2 2 0 0 .inf .inf] false (some .BestAreaFit)]
        (some [Rect.mk 2 2 (-1) (-1) .inf .inf]) (some 1) (some 2)).solutionValue =
      .error .runtimeWrongOccupancy :=
  ⟨by decide,
   (c10_empty_bin_raises _
     ⟨MaxSpaceBin.mk 2 2 0 0 [] [Rect.mk 2 2 0 0 .inf .inf] false (some .BestAreaFit),
      by decide, by decide⟩).1,
   (c10_empty_bin_raises _
     ⟨MaxSpaceBin.mk 2 2 0 0 [] [Rect.mk 2 2 0 0 .inf .inf] false (some .BestAreaFit),
      by decide, by decide⟩).2⟩

/-- C8 (counterexample): a solution whose single bin is still empty makes
`solutionValue` raise `RuntimeError("Wrong occupancy")` rather than return
`numberOfBins + occupancy of the least-filled bin` (which would be `1 + 0`). -/
theorem c8_counterexample :
    (RBPSolution.mk 4 4 [MaxSpaceBin.mkBin 4 4] none none none).solutionValue =
      .error .runtimeWrongOccupancy ∧
    (RBPSolution.mk 4 4 [MaxSpaceBin.mkBin 4 4] none none none).solutionValue ≠
      .ok ((1 : ℚ) + 0) :=
  ⟨by decide, by decide⟩

/-- The scan of `getLeastFilledBin` on bins with occupancy in `(0, 1]` returns
the first bin attaining the minimum occupancy below the running `least`. -/
theorem llbLoop_spec (l : List MaxSpaceBin) :
    ∀ (least : ℚ) (lf : Option MaxSpaceBin),
      (∀ b ∈ l, 0 < b.getOccupancy ∧ b.getOccupancy ≤ 1) →
      ∃ res, RBPSolution.llbLoop l least lf = .ok res ∧
        ((res = lf ∧ ∀ b ∈ l, least ≤ b.getOccupancy) ∨
         (∃ b0 ∈ l, res = some b0 ∧ b0.getOccupancy < least ∧
            ∀ b ∈ l, b0.getOccupancy ≤ b.getOccupancy)) := by
  induction l with
  | nil =>
    intro least lf _
    exact ⟨lf, rfl, Or.inl ⟨rfl, by simp⟩⟩
  | cons a rest ih =>
    intro least lf hocc
    have ha := hocc a (List.mem_cons_self a rest)
    have hguard : ¬ (a.getOccupancy ≤ 0 ∨ a.getOccupancy > 1) := by
      push_neg
      exact ⟨ha.1, ha.2⟩
    have hrest : ∀ b ∈ rest, 0 < b.getOccupancy ∧ b.getOccupancy ≤ 1 :=
      fun b hb => hocc b (List.mem_cons_of_mem a hb)
    unfold RBPSolution.llbLoop
    rw [if_neg hguard]
    by_cases hlt : a.getOccupancy < least
    · rw [if_pos hlt]
      obtain ⟨res, heq, hcase⟩ := ih a.getOccupancy (some a) hrest
      refine ⟨res, heq, Or.inr ?_⟩
      cases hcase with
      | inl hl =>
        exact ⟨a, List.mem_cons_self a rest, hl.1, hlt, fun b hb => by
          cases List.mem_cons.mp hb with
          | inl h => exact h ▸ le_refl _
          | inr h => exact hl.2 b h⟩
      | inr hr =>
        obtain ⟨b0, hb0, hres, hblt, hmin⟩ := hr
        exact ⟨b0, List.mem_cons_of_mem a hb0, hres, lt_trans hblt hlt, fun b hb => by
          cases List.mem_cons.mp hb with
          | inl h => exact h ▸ le_of_lt hblt
          | inr h => exact hmin b h⟩
    · rw [if_neg hlt]
      obtain ⟨res, heq, hcase⟩ := ih least lf hrest
      refine ⟨res, heq, ?_⟩
      cases hcase with
      | inl hl =>
        refine Or.inl ⟨hl.1, fun b hb => ?_⟩
        cases List.mem_cons.mp hb with
        | inl h => exact h ▸ le_of_not_lt hlt
        | inr h => exact hl.2 b h
      | inr hr =>
        obtain ⟨b0, hb0, hres, hblt, hmin⟩ := hr
        refine Or.inr ⟨b0, List.mem_cons_of_mem a hb0, hres, hblt, fun b hb => ?_⟩
        cases List.mem_cons.mp hb with
        | inl h => exact h ▸ le_of_lt (lt_of_lt_of_le hblt (le_of_not_lt hlt))
        | inr h => exact hmin b h

/-- C8 (amended): for a solution with at least one bin, all of whose bins have
occupancy in `(0, 1]` (so the internal-consistency check passes),
`solutionValue()` returns `numberOfBins + occupancy of the least-filled bin`
(the float sum `fadd`), where the least-filled bin attains the minimal
`occupiedArea/(binWidth*binHeight)` over the bin list. -/
theorem c8_solution_value (s : RBPSolution) (hne : s.binList ≠ [])
    (hocc : ∀ b ∈ s.binList, 0 < b.getOccupancy ∧ b.getOccupancy ≤ 1) :
    ∃ least, s.getLeastFilledBin = .ok (some least) ∧ least ∈ s.binList ∧
      (∀ b ∈ s.binList, least.getOccupancy ≤ b.getOccupancy) ∧
      s.solutionValue = .ok (fadd (s.getNumberOfBins : ℚ) least.getOccupancy) := by
  obtain ⟨res, heq, hcase⟩ := llbLoop_spec s.binList 2 none hocc
  cases hcase with
  | inl hl =>
    obtain ⟨b, hb⟩ := List.exists_mem_of_ne_nil s.binList hne
    have h2 := hl.2 b hb
    have := (hocc b hb).2
    linarith
  | inr hr =>
    obtain ⟨b0, hb0, hres, _, hmin⟩ := hr
    have hglb : s.getLeastFilledBin = .ok (some b0) := by
      rw [RBPSolution.getLeastFilledBin, heq, hres]
    refine ⟨b0, hglb, hb0, hmin, ?_⟩
    unfold RBPSolution.solutionValue
    rw [hglb]
    rfl

theorem c8_witness :
    ∃ least,
      (RBPSolution.mk 2 2
        [MaxSpaceBin.mk 2 2 4 0 [Rect.mk 2 2 0 0 (.ofInt 0) (.ofInt 0)] [] false
            (some .BestAreaFit),
         MaxSpaceBin.mk 2 2 2 0 [Rect.mk 2 1 0 0 (.ofInt 2) (.ofInt 0)]
            [Rect.mk 2 1 0 1 .inf .inf] false (some .BestAreaFit)]
        none none none).getLeastFilledBin = .ok (some least) ∧
      least ∈ (RBPSolution.mk 2 2
        [MaxSpaceBin.mk 2 2 4 0 [Rect.mk 2 2 0 0 (.ofInt 0) (.ofInt 0)] [] false
            (some .BestAreaFit),
         MaxSpaceBin.mk 2 2 2 0 [Rect.mk 2 1 0 0 (.ofInt 2) (.ofInt 0)]
            [Rect.mk 2 1 0 1 .inf .inf] false (some .BestAreaFit)]
        none none none).binList ∧
      (∀ b ∈ (RBPSolution.mk 2 2
        [MaxSpaceBin.mk 2 2 4 0 [Rect.mk 2 2 0 0 (.ofInt 0) (.ofInt 0)] [] false
            (some .BestAreaFit),
         MaxSpaceBin.mk 2 2 2 0 [Rect.mk 2 1 0 0 (.ofInt 2) (.ofInt 0)]
            [Rect.mk 2 1 0 1 .inf .inf] false (some .BestAreaFit)]
        none none none).binList, least.getOccupancy ≤ b.getOccupancy) ∧
      (RBPSolution.mk 2 2
        [MaxSpaceBin.mk 2 2 4 0 [Rect.mk 2 2 0 0 (.ofInt 0) (.ofInt 0)] [] false
            (some .BestAreaFit),
         MaxSpaceBin.mk 2 2 2 0 [Rect.mk 2 1 0 0 (.ofInt 2) (.ofInt 0)]
            [Rect.mk 2 1 0 1 .inf .inf] false (some .BestAreaFit)]
        none none none).solutionValue =
        .ok (fadd (((RBPSolution.mk 2 2
          [MaxSpaceBin.mk 2 2 4 0 [Rect.mk 2 2 0 0 (.ofInt 0) (.ofInt 0)] [] false
              (some .BestAreaFit),
           MaxSpaceBin.mk 2 2 2 0 [Rect.mk 2 1 0 0 (.ofInt 2) (.ofInt 0)]
              [Rect.mk 2 1 0 1 .inf .inf] false (some .BestAreaFit)]
          none none none).getNumberOfBins : ℕ) : ℚ) least.getOccupancy) :=
  c8_solution_value _ (by decide) (by decide)

/-- An item with its packing info removed is not ready for packing. -/
theorem removePackingInfo_not_ready (r : Rect) :
    r.removePackingInfo.isReadyForPacking = false := by
  simp [Rect.removePackingInfo, Rect.isReadyForPacking]

/-- When every per-bin evaluation returns no candidate, the evaluation scan of
`pack` succeeds, reports no candidate anywhere, and leaves every bin's packed
set unchanged. -/
theorem evalAll_all_none (heur : PackingHeuristic) (cur : Rect) :
    ∀ (bins : List MaxSpaceBin),
      (∀ b ∈ bins, Except.map Prod.snd (b.evaluatePacking cur heur) = .ok none) →
      ∃ bs, RBPSolution.evalAll heur cur bins = .ok bs ∧
        (∀ p ∈ bs, p.2 = none) ∧
        bs.map (fun p => p.1.packedRects) = bins.map MaxSpaceBin.packedRects := by
  intro bins
  induction bins with
  | nil => exact fun _ => ⟨[], rfl, by simp, by simp⟩
  | cons b rest ih =>
    intro h
    have hb := h b (List.mem_cons_self b rest)
    cases hev : b.evaluatePacking cur heur with
    | error e => rw [hev] at hb; simp [Except.map] at hb
    | ok p =>
      obtain ⟨b1, c⟩ := p
      rw [hev] at hb
      simp only [Except.map] at hb
      injection hb with hc
      obtain ⟨bs', hbs', hnone', hpres'⟩ :=
        ih (fun b' hb' => h b' (List.mem_cons_of_mem b hb'))
      refine ⟨(b1, c) :: bs', ?_, ?_, ?_⟩
      · unfold RBPSolution.evalAll
        rw [hev, hbs']
        rfl
      · intro q hq
        cases List.mem_cons.mp hq with
        | inl he => rw [he]; exact hc
        | inr ht => exact hnone' q ht
      · have hb1 : b1.packedRects = b.packedRects := by
          have := evaluatePacking_ok_bin hev
          rw [this]
          cases hph : b.packHeur <;> simp [hph]
        simp [hb1, hpres']

/-- The best-bin fold of `pack` keeps its running best when every candidate is
`None`. -/
theorem selectBestAux_all_none :
    ∀ (l : List (Option Rect)) (i : ℕ) (v1 v2 : Score) (best : Option (ℕ × Rect)),
      (∀ c ∈ l, c = none) → RBPSolution.selectBestAux i v1 v2 best l = best := by
  intro l
  induction l with
  | nil => intros; rfl
  | cons c rest ih =>
    intro i v1 v2 best h
    have hc : c = none := h c (List.mem_cons_self c rest)
    subst hc
    unfold RBPSolution.selectBestAux
    exact ih _ _ _ _ (fun c' hc' => h c' (List.mem_cons_of_mem none hc'))

/-- C1 (amended): when an item at its turn is accepted by no open bin and not
even by a freshly opened empty bin, the per-item step of `pack` does *not*
signal InfeasibleInstance: it returns normally, leaves every existing bin's
packed set unchanged, commits the item nowhere, and appends the fresh empty
bin to the bin list (the `False` returned by `insert` is discarded) — so
`pack` completes with the item absent from every bin. -/
theorem c1_no_fit_step (binW binH : Int) (heur : PackingHeuristic)
    (bins : List MaxSpaceBin) (r : Rect) (hne : bins ≠ [])
    (h1 : ∀ b ∈ bins,
      Except.map Prod.snd (b.evaluatePacking r.removePackingInfo heur) = .ok none)
    (h2 : Except.map Prod.snd
      ((MaxSpaceBin.mkBin binW binH).evaluatePacking r.removePackingInfo heur) = .ok none) :
    Except.map (fun bs => bs.map MaxSpaceBin.packedRects)
      (RBPSolution.packOneRect binW binH heur bins r) =
      .ok (bins.map MaxSpaceBin.packedRects ++ [[]]) := by
  have hcur : (if bins.isEmpty then r else r.removePackingInfo) = r.removePackingInfo := by
    cases bins with
    | nil => exact absurd rfl hne
    | cons _ _ => rfl
  obtain ⟨bs, hbs, hnone, hpres⟩ := evalAll_all_none heur r.removePackingInfo bins h1
  cases hev : (MaxSpaceBin.mkBin binW binH).evaluatePacking r.removePackingInfo heur with
  | error e => rw [hev] at h2; simp [Except.map] at h2
  | ok p =>
    obtain ⟨nb1, c⟩ := p
    rw [hev] at h2
    simp only [Except.map] at h2
    injection h2 with hc
    subst hc
    have hnbpacked : nb1.packedRects = [] := by
      have := evaluatePacking_ok_bin hev
      rw [this]
      cases hph : (MaxSpaceBin.mkBin binW binH).packHeur <;>
        simp [hph, MaxSpaceBin.mkBin]
    have hsel : RBPSolution.selectBestAux 0 .inf .inf none (bs.map Prod.snd) = none :=
      selectBestAux_all_none _ _ _ _ _ (by
        intro c' hc'
        obtain ⟨q, hq, hqc⟩ := List.mem_map.mp hc'
        rw [← hqc]
        exact hnone q hq)
    unfold RBPSolution.packOneRect
    rw [hcur]
    dsimp only
    rw [hbs]
    simp only [Except.bind, bind, hsel]
    unfold MaxSpaceBin.insert
    rw [removePackingInfo_not_ready]
    simp only [Bool.false_eq_true, not_false_iff, if_true, ite_true, hev,
      Except.bind, bind, Except.map]
    simp only [pure, Except.pure, List.map_append, List.map_map, Except.ok.injEq]
    simp only [Function.comp_def]
    rw [hpres]
    simp [hnbpacked]

/-- C1 (counterexample): a 3×3 item in a 2×2-bin instance.  `pack` returns
normally (`Except.ok`, no InfeasibleInstance signal): the three pre-opened
bins reject the item, a fourth bin is opened, its failed `insert` result is
discarded, and the packing completes with the item in no bin — every one of
the four bins is empty. -/
theorem c1_counterexample :
    Except.map (fun s => s.binList.map (fun b => b.packedRects.length))
      ((mkSolution 2 2).pack (some [Rect.mkRect 3 3]) PackingHeuristic.BestAreaFit false) =
    .ok [0, 0, 0, 0] := by
  decide

theorem c1_witness :
    Except.map (fun bs => bs.map MaxSpaceBin.packedRects)
      (RBPSolution.packOneRect 2 2 PackingHeuristic.BestAreaFit
        [MaxSpaceBin.mkBin 2 2] (Rect.mkRect 3 3)) =
      .ok ([MaxSpaceBin.mkBin 2 2].map MaxSpaceBin.packedRects ++ [[]]) :=
  c1_no_fit_step 2 2 .BestAreaFit [MaxSpaceBin.mkBin 2 2] (Rect.mkRect 3 3)
    (by decide) (by decide) (by decide)

/-- C9 (amended): with a valid fraction and `sortBeforeRepack` false, and with
the removal count `max(int(percentage*numRects + 1), 2)` not exceeding the
item count, `removeAndRepack` selects exactly that many items from the head
(`reverse`) or tail of the working order; the selected sub-range is perturbed
by at least one random pairwise swap only when its length is at least 3 —
when the removal count is exactly 2, `perturb` returns it unchanged and the
working order is written back identical — and the whole working list is then
re-packed. -/
theorem c9_remove_and_repack (s : RBPSolution) (heur : PackingHeuristic) (percentage : ℚ)
    (reverse first : Bool) (o : PerturbOracle) (items : List Rect) (n : ℕ)
    (number : Int) (subList wb : List Rect)
    (hp0 : 0 ≤ percentage) (hp1 : percentage ≤ 1)
    (hitems : s.rectList = some items) (hne : items ≠ [])
    (hn : s.numRects = some n) (hlen : items.length = n)
    (hnum : number = max (pyTrunc (fadd (fmul percentage ((n : ℕ) : ℚ)) 1)) 2)
    (hcnt : number ≤ (n : Int))
    (hsub : subList = if reverse then items.take (pySliceIdx items.length number)
                      else items.drop (pySliceIdx items.length ((n : Int) - number)))
    (hwb : wb = if reverse then
        RBPSolution.perturb o subList ++ items.drop (pySliceIdx items.length number)
      else items.take (pySliceIdx items.length ((n : Int) - number)) ++
        RBPSolution.perturb o subList) :
    subList.length = number.toNat ∧
    (3 ≤ number → 1 ≤ RBPSolution.perturbSwapCount o subList) ∧
    (number = 2 → RBPSolution.perturb o subList = subList ∧ wb = items) ∧
    s.removeAndRepack heur percentage reverse false first o =
      RBPSolution.pack { s with rectList := some wb } none heur first := by
  have hnum2 : 2 ≤ number := hnum ▸ le_max_right _ _
  have hidx1 : pySliceIdx items.length number = number.toNat := by
    unfold pySliceIdx
    rw [if_pos (by omega)]
    have : number.toNat ≤ items.length := by omega
    exact Nat.min_eq_left this
  have hidx2 : pySliceIdx items.length ((n : Int) - number) = n - number.toNat := by
    unfold pySliceIdx
    rw [if_pos (by omega)]
    have h1 : ((n : Int) - number).toNat = n - number.toNat := by omega
    rw [h1]
    exact Nat.min_eq_left (by omega)
  have hsublen : subList.length = number.toNat := by
    rw [hsub]
    cases reverse with
    | false =>
      simp only [Bool.false_eq_true, if_false]
      rw [List.length_drop, hidx2]
      omega
    | true =>
      simp only [eq_self_iff_true, if_true]
      rw [List.length_take, hidx1]
      exact Nat.min_eq_left (by omega)
  refine ⟨hsublen, ?_, ?_, ?_⟩
  · intro h3
    unfold RBPSolution.perturbSwapCount
    rw [if_neg (by omega)]
    exact le_max_right _ _
  · intro h2
    have hcount : RBPSolution.perturbSwapCount o subList = 0 := by
      unfold RBPSolution.perturbSwapCount
      rw [if_pos (by omega)]
    have hpert : RBPSolution.perturb o subList = subList := by
      unfold RBPSolution.perturb
      rw [hcount]
      rfl
    refine ⟨hpert, ?_⟩
    rw [hwb, hpert, hsub]
    cases reverse with
    | false =>
      simp only [Bool.false_eq_true, if_false]
      exact List.take_append_drop _ _
    | true =>
      simp only [eq_self_iff_true, if_true]
      exact List.take_append_drop _ _
  · unfold RBPSolution.removeAndRepack
    rw [if_neg (by push_neg; exact ⟨hp0, hp1⟩)]
    have htruthy : optListTruthy s.rectList = true := by
      rw [hitems]
      unfold optListTruthy
      simp [List.isEmpty_iff, hne]
    rw [if_neg (by rw [htruthy]; simp)]
    rw [hn]
    dsimp only
    rw [hitems]
    simp only [Option.getD_some, Bool.false_eq_true, if_false]
    rw [← hnum, ← hsub, ← hwb]

/-- C9 (counterexample): with fraction 0 over 4 items the removal count is
exactly `max(int(0*4+1), 2) = 2`, and `removeAndRepack` (tail selection, no
sorting) leaves the working order completely unchanged — the two selected
items (distinct 3×3 and 4×4) would have traded places had even one pairwise
swap been applied, but `perturb` returns immediately for sub-ranges of length
at most 2. -/
theorem c9_counterexample :
    max (pyTrunc (fadd (fmul 0 ((4 : ℕ) : ℚ)) 1)) 2 = (2 : Int) ∧
    Except.map (fun s => s.rectList.map (List.map (fun r => (r.width, r.height))))
      ((RBPSolution.mk 100 100 []
        (some [Rect.mkRect 1 1, Rect.mkRect 2 2, Rect.mkRect 3 3, Rect.mkRect 4 4])
        (some 4) (some 1)).removeAndRepack .BestAreaFit 0 false false false
        (PerturbOracle.mk (Rat.divInt 1 10) (fun _ => (0, 1)))) =
      .ok (some [((1 : Int), (1 : Int)), (2, 2), (3, 3), (4, 4)]) :=
  ⟨by decide, by decide⟩

theorem c9_witness :
    ([Rect.mkRect 2 2, Rect.mkRect 3 3, Rect.mkRect 4 4] : List Rect).length =
      (3 : Int).toNat ∧
    ((3 : Int) ≤ 3 → 1 ≤ RBPSolution.perturbSwapCount
      (PerturbOracle.mk (Rat.divInt 1 10) (fun _ => (0, 1)))
      [Rect.mkRect 2 2, Rect.mkRect 3 3, Rect.mkRect 4 4]) ∧
    ((3 : Int) = 2 → RBPSolution.perturb
        (PerturbOracle.mk (Rat.divInt 1 10) (fun _ => (0, 1)))
        [Rect.mkRect 2 2, Rect.mkRect 3 3, Rect.mkRect 4 4] =
        [Rect.mkRect 2 2, Rect.mkRect 3 3, Rect.mkRect 4 4] ∧
      [Rect.mkRect 1 1, Rect.mkRect 3 3, Rect.mkRect 2 2, Rect.mkRect 4 4] =
        [Rect.mkRect 1 1, Rect.mkRect 2 2, Rect.mkRect 3 3, Rect.mkRect 4 4]) ∧
    (RBPSolution.mk 100 100 []
        (some [Rect.mkRect 1 1, Rect.mkRect 2 2, Rect.mkRect 3 3, Rect.mkRect 4 4])
        (some 4) (some 1)).removeAndRepack .BestAreaFit (Rat.divInt 1 2) false false false
        (PerturbOracle.mk (Rat.divInt 1 10) (fun _ => (0, 1))) =
      RBPSolution.pack
        { RBPSolution.mk 100 100 []
            (some [Rect.mkRect 1 1, Rect.mkRect 2 2, Rect.mkRect 3 3, Rect.mkRect 4 4])
            (some 4) (some 1) with
          rectList := some [Rect.mkRect 1 1, Rect.mkRect 3 3, Rect.mkRect 2 2, Rect.mkRect 4 4] }
        none .BestAreaFit false :=
  c9_remove_and_repack
    (RBPSolution.mk 100 100 []
      (some [Rect.mkRect 1 1, Rect.mkRect 2 2, Rect.mkRect 3 3, Rect.mkRect 4 4])
      (some 4) (some 1))
    .BestAreaFit (Rat.divInt 1 2) false false
    (PerturbOracle.mk (Rat.divInt 1 10) (fun _ => (0, 1)))
    [Rect.mkRect 1 1, Rect.mkRect 2 2, Rect.mkRect 3 3, Rect.mkRect 4 4] 4 3
    [Rect.mkRect 2 2, Rect.mkRect 3 3, Rect.mkRect 4 4]
    [Rect.mkRect 1 1, Rect.mkRect 3 3, Rect.mkRect 2 2, Rect.mkRect 4 4]
    (by decide) (by decide) (by decide) (by decide) (by decide) (by decide)
    (by decide) (by decide) (by decide) (by decide)

/-- Every residual produced by splitting a free space around a packed `rect`
is contained in the original free space and does not overlap the interior of
`rect`. -/
theorem splitFreeRect_sound (rect freeRect r' : Rect)
    (h : r' ∈ MaxSpaceBin.splitFreeRect rect freeRect) :
    r'.isContainedIn freeRect = true ∧ MaxSpaceBin.isOverlappingB r' rect = false := by
  unfold MaxSpaceBin.splitFreeRect at h
  dsimp only at h
  rw [List.mem_append, List.mem_append, List.mem_append] at h
  obtain ((h | h) | h) | h := h
  · split_ifs at h with hc
    · rw [List.mem_singleton] at h
      subst h
      exact ⟨by rw [isContainedIn_iff]; simp <;> omega,
             by rw [isOverlappingB_eq_false_iff]; simp <;> omega⟩
    · exact absurd h (List.not_mem_nil _)
  · split_ifs at h with hc
    · rw [List.mem_singleton] at h
      subst h
      exact ⟨by rw [isContainedIn_iff]; simp <;> omega,
             by rw [isOverlappingB_eq_false_iff]; simp <;> omega⟩
    · exact absurd h (List.not_mem_nil _)
  · split_ifs at h with hc
    · rw [List.mem_singleton] at h
      subst h
      exact ⟨by rw [isContainedIn_iff]; simp <;> omega,
             by rw [isOverlappingB_eq_false_iff]; simp <;> omega⟩
    · exact absurd h (List.not_mem_nil _)
  · split_ifs at h with hc
    · rw [List.mem_singleton] at h
      subst h
      exact ⟨by rw [isContainedIn_iff]; simp <;> omega,
             by rw [isOverlappingB_eq_false_iff]; simp <;> omega⟩
    · exact absurd h (List.not_mem_nil _)

/-- After `generateNewMaxSpaces`, every free space is contained in one of the
previous free spaces and does not overlap the interior of the newly packed
`rect`. -/
theorem generateNewMaxSpaces_mem (b : MaxSpaceBin) (rect fr' : Rect)
    (h : fr' ∈ (b.generateNewMaxSpaces rect).freeRects) :
    (∃ fr ∈ b.freeRects, fr'.isContainedIn fr = true) ∧
    MaxSpaceBin.isOverlappingB fr' rect = false := by
  unfold MaxSpaceBin.generateNewMaxSpaces at h
  dsimp only at h
  rw [List.mem_append] at h
  cases h with
  | inl hk =>
    have hmem := List.mem_of_mem_filter hk
    have hpred := List.of_mem_filter hk
    simp only [Bool.not_eq_true'] at hpred
    exact ⟨⟨fr', hmem, isContainedIn_refl fr'⟩, by
      simpa using hpred⟩
  | inr hs =>
    obtain ⟨fr, hfr, hmem⟩ := List.mem_flatMap.mp hs
    have := splitFreeRect_sound rect fr fr' hmem
    exact ⟨⟨fr, List.mem_of_mem_filter hfr, this.1⟩, this.2⟩

/-- `generateNewMaxSpaces` changes only the free-space list. -/
theorem generateNewMaxSpaces_fields (b : MaxSpaceBin) (rect : Rect) :
    (b.generateNewMaxSpaces rect).binWidth = b.binWidth ∧
    (b.generateNewMaxSpaces rect).binHeight = b.binHeight ∧
    (b.generateNewMaxSpaces rect).packedRects = b.packedRects := by
  unfold MaxSpaceBin.generateNewMaxSpaces
  exact ⟨rfl, rfl, rfl⟩

/-- If the inner containment scan for outer index `i` never marked `i` itself
(i.e. it ran to completion without its break), then every later rect contained
in `rectI` got marked, and any later rect containing `rectI` also contains a
rect equal in extent (the `if` branch fires first on equality). -/
theorem innerScan_spec (i : ℕ) (rectI : Rect) :
    ∀ (pairs : List (ℕ × Rect)),
      i ∉ MaxSpaceBin.innerScan i rectI pairs →
      ∀ p ∈ pairs,
        (p.2.isContainedIn rectI = true → p.1 ∈ MaxSpaceBin.innerScan i rectI pairs) ∧
        (rectI.isContainedIn p.2 = true → p.2.isContainedIn rectI = true) := by
  intro pairs
  induction pairs with
  | nil => intro _ p hp; exact absurd hp (List.not_mem_nil p)
  | cons q rest ih =>
    intro hni p hp
    obtain ⟨j, rectJ⟩ := q
    by_cases hJI : rectJ.isContainedIn rectI = true
    · have hscan : MaxSpaceBin.innerScan i rectI ((j, rectJ) :: rest) =
          j :: MaxSpaceBin.innerScan i rectI rest := by
        rw [MaxSpaceBin.innerScan, if_pos hJI]
      rw [hscan] at hni ⊢
      have hni' : i ∉ MaxSpaceBin.innerScan i rectI rest :=
        fun hmem => hni (List.mem_cons_of_mem j hmem)
      cases List.mem_cons.mp hp with
      | inl he =>
        subst he
        exact ⟨fun _ => List.mem_cons_self j _, fun _ => hJI⟩
      | inr ht =>
        have := ih hni' p ht
        exact ⟨fun hc => List.mem_cons_of_mem j (this.1 hc), this.2⟩
    · by_cases hIJ : rectI.isContainedIn rectJ = true
      · have hscan : MaxSpaceBin.innerScan i rectI ((j, rectJ) :: rest) = [i] := by
          rw [MaxSpaceBin.innerScan, if_neg hJI, if_pos hIJ]
        rw [hscan] at hni
        exact absurd (List.mem_singleton.mpr rfl) hni
      · have hscan : MaxSpaceBin.innerScan i rectI ((j, rectJ) :: rest) =
            MaxSpaceBin.innerScan i rectI rest := by
          rw [MaxSpaceBin.innerScan, if_neg hJI, if_neg hIJ]
        rw [hscan] at hni ⊢
        cases List.mem_cons.mp hp with
        | inl he =>
          subst he
          exact ⟨fun hc => absurd hc hJI, fun hc => absurd hc hIJ⟩
        | inr ht => exact ih hni p ht

/-- Any two entries of the enumerated free-space list that both escape the
`toRemove` marking are mutually non-contained. -/
theorem toRemoveAux_pairwise :
    ∀ (E : List (ℕ × Rect)) (R : List ℕ),
      (∀ x ∈ MaxSpaceBin.toRemoveAux E, x ∈ R) →
      E.Pairwise (fun p q => p.1 ∉ R → q.1 ∉ R → nonNested p.2 q.2) := by
  intro E
  induction E with
  | nil => intro R _; exact List.Pairwise.nil
  | cons hd rest ih =>
    intro R hsub
    obtain ⟨i, rectI⟩ := hd
    have hsubScan : ∀ x ∈ MaxSpaceBin.innerScan i rectI rest, x ∈ R := by
      intro x hx
      exact hsub x (by
        unfold MaxSpaceBin.toRemoveAux
        exact List.mem_append.mpr (Or.inl hx))
    have hsubRest : ∀ x ∈ MaxSpaceBin.toRemoveAux rest, x ∈ R := by
      intro x hx
      exact hsub x (by
        unfold MaxSpaceBin.toRemoveAux
        exact List.mem_append.mpr (Or.inr hx))
    refine List.Pairwise.cons ?_ (ih R hsubRest)
    intro q hq hiR hqR
    have hni : i ∉ MaxSpaceBin.innerScan i rectI rest :=
      fun hmem => hiR (hsubScan i hmem)
    have hspec := innerScan_spec i rectI rest hni q hq
    have hJI : q.2.isContainedIn rectI = false := by
      cases hval : q.2.isContainedIn rectI with
      | false => rfl
      | true => exact absurd (hsubScan q.1 (hspec.1 hval)) hqR
    have hIJ : rectI.isContainedIn q.2 = false := by
      cases hval : rectI.isContainedIn q.2 with
      | false => rfl
      | true => exact absurd (hspec.2 hval) (by rw [hJI]; simp)
    exact ⟨hIJ, hJI⟩

/-- A successful `pruneMaxSpaces` returns the bin with exactly the unmarked
free spaces (in order) and every other field unchanged. -/
theorem pruneMaxSpaces_ok {b b' : MaxSpaceBin} (h : b.pruneMaxSpaces = .ok b') :
    b' = { b with freeRects :=
      ((MaxSpaceBin.enumFrom 0 b.freeRects).filter
        (fun p => decide (p.1 ∉ MaxSpaceBin.toRemoveAux
          (MaxSpaceBin.enumFrom 0 b.freeRects)))).map Prod.snd } := by
  unfold MaxSpaceBin.pruneMaxSpaces at h
  dsimp only at h
  split_ifs at h with hc
  all_goals first
    | exact (Except.ok.inj h).symm
    | exact absurd h (by simp)

/-- Enumeration only pairs each element with an index. -/
theorem enumFrom_snd_mem :
    ∀ (l : List Rect) (k : ℕ) (p : ℕ × Rect),
      p ∈ MaxSpaceBin.enumFrom k l → p.2 ∈ l := by
  intro l
  induction l with
  | nil => intro k p hp; exact absurd hp (List.not_mem_nil p)
  | cons r rs ih =>
    intro k p hp
    rw [MaxSpaceBin.enumFrom] at hp
    cases List.mem_cons.mp hp with
    | inl he => rw [he]; exact List.mem_cons_self r rs
    | inr ht => exact List.mem_cons_of_mem r (ih (k + 1) p ht)

/-- The free-space list surviving `pruneMaxSpaces` has no entry contained in
(or equal to) another. -/
theorem pruned_pairwise (l : List Rect) :
    (((MaxSpaceBin.enumFrom 0 l).filter
      (fun p => decide (p.1 ∉ MaxSpaceBin.toRemoveAux (MaxSpaceBin.enumFrom 0 l)))).map
      Prod.snd).Pairwise nonNested := by
  have h1 := toRemoveAux_pairwise (MaxSpaceBin.enumFrom 0 l)
    (MaxSpaceBin.toRemoveAux (MaxSpaceBin.enumFrom 0 l)) (fun x hx => hx)
  have h2 := h1.filter
    (fun p => decide (p.1 ∉ MaxSpaceBin.toRemoveAux (MaxSpaceBin.enumFrom 0 l)))
  rw [List.pairwise_map]
  refine h2.imp_of_mem ?_
  intro a b ha hb hR
  have ha2 := List.of_mem_filter ha
  have hb2 := List.of_mem_filter hb
  simp only [decide_eq_true_eq] at ha2 hb2
  exact hR ha2 hb2

/-- The free-space invariants depend only on the dimensions, packed set and
free set. -/
theorem binFreeSpaceInv_congr {b b' : MaxSpaceBin}
    (hW : b'.binWidth = b.binWidth) (hH : b'.binHeight = b.binHeight)
    (hp : b'.packedRects = b.packedRects) (hf : b'.freeRects = b.freeRects)
    (hinv : binFreeSpaceInv b) : binFreeSpaceInv b' := by
  unfold binFreeSpaceInv insideBin at *
  rw [hW, hH, hp, hf]
  exact hinv

/-- Committing an item and restoring the free-space structure (the
`packRect`/`generateNewMaxSpaces`/`pruneMaxSpaces` sequence of a successful
`insert`) re-establishes all three free-space invariants, for an arbitrary
committed rectangle. -/
theorem commit_inv (b : MaxSpaceBin) (nr : Rect) (b4 : MaxSpaceBin)
    (hinv : binFreeSpaceInv b)
    (h : ((b.packRect nr).generateNewMaxSpaces nr).pruneMaxSpaces = .ok b4) :
    binFreeSpaceInv b4 := by
  have hb4 := pruneMaxSpaces_ok h
  have hfree2 : (b.packRect nr).freeRects = b.freeRects := rfl
  have hpacked3 : ((b.packRect nr).generateNewMaxSpaces nr).packedRects =
      b.packedRects ++ [nr] := rfl
  have hW : b4.binWidth = b.binWidth := by rw [hb4]; rfl
  have hH : b4.binHeight = b.binHeight := by rw [hb4]; rfl
  have hpacked4 : b4.packedRects = b.packedRects ++ [nr] := by rw [hb4]; rfl
  have hmem4 : ∀ fr' ∈ b4.freeRects,
      fr' ∈ ((b.packRect nr).generateNewMaxSpaces nr).freeRects := by
    intro fr' hfr'
    rw [hb4] at hfr'
    simp only at hfr'
    obtain ⟨p, hp, hsnd⟩ := List.mem_map.mp hfr'
    rw [← hsnd]
    exact enumFrom_snd_mem _ 0 p (List.mem_of_mem_filter hp)
  have hgen : ∀ fr' ∈ ((b.packRect nr).generateNewMaxSpaces nr).freeRects,
      (∃ fr ∈ b.freeRects, fr'.isContainedIn fr = true) ∧
      MaxSpaceBin.isOverlappingB fr' nr = false := by
    intro fr' hfr'
    have := generateNewMaxSpaces_mem (b.packRect nr) nr fr' hfr'
    rw [hfree2] at this
    exact this
  refine ⟨?_, ?_, ?_⟩
  · intro fr' hfr'
    obtain ⟨⟨fr, hfr, hcont⟩, _⟩ := hgen fr' (hmem4 fr' hfr')
    have := insideBin_of_contained b fr fr' hcont (hinv.1 fr hfr)
    unfold insideBin at this ⊢
    rw [hW, hH]
    exact this
  · intro fr' hfr' p hp
    obtain ⟨⟨fr, hfr, hcont⟩, hnov⟩ := hgen fr' (hmem4 fr' hfr')
    rw [hpacked4] at hp
    cases List.mem_append.mp hp with
    | inl hold => exact notOverlap_of_contained fr' fr p hcont (hinv.2.1 fr hfr p hold)
    | inr hnew =>
      rw [List.mem_singleton] at hnew
      rw [hnew]
      exact hnov
  · have hfr4 : b4.freeRects =
        ((MaxSpaceBin.enumFrom 0 ((b.packRect nr).generateNewMaxSpaces nr).freeRects).filter
          (fun p => decide (p.1 ∉ MaxSpaceBin.toRemoveAux
            (MaxSpaceBin.enumFrom 0 ((b.packRect nr).generateNewMaxSpaces nr).freeRects)))).map
          Prod.snd := by
      rw [hb4]
    rw [hfr4]
    exact pruned_pairwise _

/-- A non-raising `insert` preserves the free-space invariants, whether it
packs the item (`True`) or rejects it with no state change (`False`). -/
theorem insert_inv (b : MaxSpaceBin) (r : Rect) (heur : PackingHeuristic)
    (flag : Bool) (b' : MaxSpaceBin) (hinv : binFreeSpaceInv b)
    (h : b.insert r heur = .ok (flag, b')) : binFreeSpaceInv b' := by
  unfold MaxSpaceBin.insert at h
  by_cases hr : r.isReadyForPacking = true
  · rw [if_neg (by rw [hr]; simp)] at h
    simp only [pure, Except.pure, Except.bind, bind] at h
    cases hprune : ((b.packRect r).generateNewMaxSpaces r).pruneMaxSpaces with
    | error e => rw [hprune] at h; exact absurd h (by simp)
    | ok b4 =>
      rw [hprune] at h
      simp only [pure, Except.pure] at h
      injection h with h1
      injection h1 with hflag hb'
      exact hb' ▸ commit_inv b r b4 hinv hprune
  · rw [if_pos (by rw [Bool.not_eq_true] at hr; rw [hr]; simp)] at h
    cases hev : b.evaluatePacking r heur with
    | error e => rw [hev] at h; exact absurd h (by simp [Except.bind, bind])
    | ok p =>
      obtain ⟨b1, cand⟩ := p
      rw [hev] at h
      simp only [Except.bind, bind] at h
      have hinv1 : binFreeSpaceInv b1 := by
        have hb1 := evaluatePacking_ok_bin hev
        refine binFreeSpaceInv_congr ?_ ?_ ?_ ?_ hinv <;>
          (rw [hb1]; cases hph : b.packHeur <;> simp [hph])
      cases cand with
      | none =>
        simp only [pure, Except.pure] at h
        injection h with h1
        injection h1 with hflag hb'
        exact hb' ▸ hinv1
      | some nr =>
        dsimp only at h
        cases hprune : ((b1.packRect nr).generateNewMaxSpaces nr).pruneMaxSpaces with
        | error e => rw [hprune] at h; exact absurd h (by simp)
        | ok b4 =>
          rw [hprune] at h
          simp only [pure, Except.pure] at h
          injection h with h1
          injection h1 with hflag hb'
          exact hb' ▸ commit_inv b1 nr b4 hinv1 hprune

/-- C3: starting from a freshly set-up bin, after every sequence of `insert`
calls that return normally, the free-space set satisfies all three invariants:
every free space lies entirely inside the bin, no free space overlaps the
interior of any packed item, and no free space is contained in (or equal to)
another free space of the set. -/
theorem c3_free_space_invariants (b : MaxSpaceBin) (h : ReachableBin b) :
    binFreeSpaceInv b := by
  induction h with
  | setup w hgt rot =>
    refine ⟨?_, ?_, ?_⟩
    · intro fr hfr
      simp only [MaxSpaceBin.mkBin, List.mem_singleton] at hfr
      subst hfr
      unfold insideBin
      simp [Rect.mkRect, MaxSpaceBin.mkBin]
    · intro fr hfr p hp
      simp only [MaxSpaceBin.mkBin] at hp
      exact absurd hp (List.not_mem_nil p)
    · simp only [MaxSpaceBin.mkBin]
      exact List.pairwise_singleton _ _
  | step b r heur flag b' hb hstep ih =>
    exact insert_inv b r heur flag b' ih hstep

theorem c3_witness :
    binFreeSpaceInv (MaxSpaceBin.mk 4 4 9 0 [Rect.mk 3 3 0 0 (.ofInt 7) (.ofInt 1)]
      [Rect.mk 4 1 0 3 .inf .inf, Rect.mk 1 4 3 0 .inf .inf] false (some .BestAreaFit)) :=
  c3_free_space_invariants _
    (ReachableBin.step _ (Rect.mkRect 3 3) .BestAreaFit true _
      (ReachableBin.setup 4 4 false) (by decide))
